import Mathlib

/-!
Verification development for the Events repository backend.

The definitions below are a shallow embedding of the Python source:
- `Backend/engines/event_engine.py` (SmartEventEngine: range cache, dedup),
- `Backend/services/rate_limiter.py` (TwitterRateLimiter, APICache),
- `Backend/services/twitter_client.py` (TwitterClient with retry),
- `Backend/engines/attendee_engine.py` (SmartAttendeeEngine).

Modelling conventions:
- Timestamps (`datetime.now()`, `time.time()`, `datetime` values) are an
  abstract integer timeline `Int`; `timedelta(minutes=w)` is `w * 60`.
- Python dicts (which preserve insertion order, update keys in place and
  expose the first-inserted key via `next(iter(d))`) are association lists
  with `assocLookup` / `assocSet` / `assocErase` below.
- A single external invocation of `request_func` is modelled by an oracle
  `behavior : Nat → Outcome`, consumed one index per real invocation;
  `time.sleep` calls only increment counters (the model evaluates one
  `call` at a fixed instant `now`).
- Python float confidence scores (0.7, 0.85, ...) are exact hundredths
  stored in `Int`; no claim depends on float rounding.
- String operations (`str.lower`, `str.strip`, `str.split`, `in`) are
  re-implemented structurally over `List Char` so that all definitions
  reduce inside the kernel.
-/

/-! ## Generic association-list operations (Python dict model) -/

def assocLookup {β : Type} (l : List (String × β)) (k : String) : Option β :=
  match l with
  | [] => none
  | (k1, v) :: rest => if k1 = k then some v else assocLookup rest k

def assocSet {β : Type} (l : List (String × β)) (k : String) (v : β) : List (String × β) :=
  match l with
  | [] => [(k, v)]
  | (k1, v1) :: rest => if k1 = k then (k, v) :: rest else (k1, v1) :: assocSet rest k v

def assocErase {β : Type} (l : List (String × β)) (k : String) : List (String × β) :=
  match l with
  | [] => []
  | (k1, v1) :: rest => if k1 = k then assocErase rest k else (k1, v1) :: assocErase rest k

/-! ## Structural string helpers (Python str methods over List Char) -/

def splitOnPred (p : Char → Bool) : List Char → List (List Char)
  | [] => [[]]
  | c :: rest =>
    match splitOnPred p rest with
    | [] => [[]]
    | g :: gs => if p c then [] :: g :: gs else (c :: g) :: gs

def pyLower (s : String) : String := String.mk (s.data.map Char.toLower)

def pyStrip (s : String) : String :=
  String.mk (((s.data.dropWhile Char.isWhitespace).reverse.dropWhile Char.isWhitespace).reverse)

def pySplitWs (s : String) : List String :=
  ((splitOnPred Char.isWhitespace s.data).map String.mk).filter (fun w => w ≠ "")

def isPrefixOfChars : List Char → List Char → Bool
  | [], _ => true
  | _ :: _, [] => false
  | a :: as, b :: bs => (a == b) && isPrefixOfChars as bs

def containsChars (pat : List Char) : List Char → Bool
  | [] => pat.isEmpty
  | c :: rest => isPrefixOfChars pat (c :: rest) || containsChars pat rest

/-- Python `pat in s` on strings (empty pattern is always contained). -/
def strContains (s pat : String) : Bool :=
  pat.isEmpty || containsChars pat.data s.data

/-- Python list slicing `l[:n]` for a possibly negative `n`. -/
def pyTake {β : Type} (n : Int) (l : List β) : List β :=
  if 0 ≤ n then l.take n.toNat else l.take (l.length - n.natAbs)

/-! ## Date parsing: `datetime.strptime(s, "%Y-%m-%d")`

CPython strptime matches `%Y` against exactly four digits, `%m` against
`1[0-2]|0[1-9]|[1-9]` and `%d` against `3[01]|[12]\d|0[1-9]|[1-9]`, then
validates the day against the month length (raising `ValueError` on
failure, modelled as `none`).  A parsed date is encoded as the natural
number `y * 10000 + m * 100 + d`; since `m ≤ 12 < 100` and `d ≤ 31 < 100`
this encoding is strictly monotone for the chronological order used by
every `datetime` comparison in the source. -/

def digitsVal (l : List Char) : Nat := l.foldl (fun acc c => acc * 10 + (c.toNat - 48)) 0

def digitsToNat (l : List Char) : Option Nat :=
  if l ≠ [] ∧ l.all Char.isDigit then some (digitsVal l) else none

def parseField2 (l : List Char) (maxV : Nat) : Option Nat :=
  if l.length = 1 ∨ l.length = 2 then
    match digitsToNat l with
    | some v => if 1 ≤ v ∧ v ≤ maxV then some v else none
    | none => none
  else none

def parseYear4 (l : List Char) : Option Nat :=
  if l.length = 4 then digitsToNat l else none

def isLeapYear (y : Nat) : Bool := (y % 4 == 0 && y % 100 != 0) || (y % 400 == 0)

def daysInMonth (y m : Nat) : Nat :=
  if m = 2 then (if isLeapYear y then 29 else 28)
  else if m = 4 ∨ m = 6 ∨ m = 9 ∨ m = 11 then 30
  else 31

def parseDate (s : String) : Option Nat :=
  match splitOnPred (fun c => c == '-') s.data with
  | [ys, ms, ds] =>
    match parseYear4 ys, parseField2 ms 12, parseField2 ds 31 with
    | some y, some m, some d =>
      if 1 ≤ y ∧ d ≤ daysInMonth y m then some (y * 10000 + m * 100 + d) else none
    | _, _, _ => none
  | _ => none

/-! ## SmartEventEngine data model (event_engine.py) -/

structure ResearchEvent where
  event_name : String
  exact_date : String
  exact_venue : String
  location : String
  category : String
  confidence_score : Int
  source_tweet : String
  posted_by : String
deriving DecidableEq, Repr

/-- Inner dict of `self.event_cache[location]`: range key `"start_end"` to events. -/
abbrev RangeMap := List (String × List ResearchEvent)

/-- `self.event_cache`: location to range map. -/
abbrev EventCache := List (String × RangeMap)

/-- `SmartEventEngine._ranges_overlap`: `not (end1 < start2 or start1 > end2)`. -/
def ranges_overlap (start1 end1 start2 end2 : Nat) : Bool :=
  !(decide (end1 < start2) || decide (start1 > end2))

/-- Unpacking `cache_start_str, cache_end_str = cached_range.split("_")`;
a key with any number of parts other than two raises `ValueError` (`none`). -/
def split_range_key (k : String) : Option (String × String) :=
  match splitOnPred (fun c => c == '_') k.data with
  | [a, b] => some (String.mk a, String.mk b)
  | _ => none

/-- The per-event filter in `_get_cached_events`: keep an event when its own
date parses and `search_start <= event_date <= search_end` (a parse failure
is swallowed by the bare `except: continue`). -/
def eventInRange (lo hi : Nat) (e : ResearchEvent) : Bool :=
  match parseDate e.exact_date with
  | some d => decide (lo ≤ d) && decide (d ≤ hi)
  | none => false

/-- The loop of `_get_cached_events` over `self.event_cache[location].items()`.
A malformed range key or an unparseable range bound raises out of the loop
(`none`); overlapping entries contribute their events filtered to the query
range, in iteration (= insertion) order. -/
def collect_overlapping (lo hi : Nat) : RangeMap → Option (List ResearchEvent)
  | [] => some []
  | (rk, evs) :: rest =>
    match split_range_key rk with
    | none => none
    | some (ss, es) =>
      match parseDate ss, parseDate es with
      | some cs, some ce =>
        match collect_overlapping lo hi rest with
        | some tail =>
          if ranges_overlap lo hi cs ce then some (evs.filter (eventInRange lo hi) ++ tail)
          else some tail
        | none => none
      | _, _ => none

/-- `SmartEventEngine._get_cached_events`.  The unknown-location early return
happens before the query dates are parsed; a query-date parse failure raises
(`none`, caught only by the `discover_events` wrapper). -/
def get_cached_events (cache : EventCache) (location start_date end_date : String) :
    Option (List ResearchEvent) :=
  match assocLookup cache location with
  | none => some []
  | some ranges =>
    match parseDate start_date, parseDate end_date with
    | some lo, some hi => collect_overlapping lo hi ranges
    | _, _ => none

/-- `SmartEventEngine._cache_events`: store under key `f"{start}_{end}"`, then
if the group has more than 5 ranges delete the first-inserted key
(`next(iter(dict))`). -/
def cache_events (cache : EventCache) (location start_date end_date : String)
    (events : List ResearchEvent) : EventCache :=
  let ranges := (assocLookup cache location).getD []
  let key := start_date ++ "_" ++ end_date
  let ranges1 := assocSet ranges key events
  let ranges2 := if ranges1.length > 5 then ranges1.drop 1 else ranges1
  assocSet cache location ranges2

/-- Dedup key `(event.event_name.lower().strip(), event.exact_date)`. -/
def eventKey (e : ResearchEvent) : String × String := (pyStrip (pyLower e.event_name), e.exact_date)

/-- The `seen`-set loop of `SmartEventEngine._remove_duplicates`. -/
def removeDupAux (seen : List (String × String)) : List ResearchEvent → List ResearchEvent
  | [] => []
  | e :: rest =>
    if eventKey e ∈ seen then removeDupAux seen rest
    else e :: removeDupAux (eventKey e :: seen) rest

/-- `SmartEventEngine._remove_duplicates`. -/
def remove_duplicates (events : List ResearchEvent) : List ResearchEvent :=
  removeDupAux [] events

/-- Specification-side description of deduplication ("keep the first-seen
item of every key, preserving order"), written from the words of the spec to
compare with the source-level `remove_duplicates`. -/
def keepFirstByKey : List ResearchEvent → List ResearchEvent
  | [] => []
  | e :: rest => e :: keepFirstByKey (rest.filter (fun x => decide (eventKey x ≠ eventKey e)))
termination_by l => l.length
decreasing_by
  simp only [List.length_cons]
  exact Nat.lt_succ_of_le (List.length_filter_le _ rest)

/-- `categories[0] if categories else "all"`. -/
def head_category : List String → String
  | [] => "all"
  | c :: _ => c

/-- `SmartEventEngine.discover_events`.  The SerpAPI fetch
`_get_new_events_serpapi` performs network calls; it catches every internal
error and always returns a list, so it enters the model as the oracle
`fresh : category → needed → items`.  An exception from
`_get_cached_events` is caught by the surrounding `try` and yields `[]`. -/
def discover_events (cache : EventCache) (location start_date end_date : String)
    (categories : List String) (max_results : Int)
    (fresh : String → Int → List ResearchEvent) : List ResearchEvent × EventCache :=
  match get_cached_events cache location start_date end_date with
  | none => ([], cache)
  | some cached_events =>
    let needed : Int := max 0 (max_results - (cached_events.length : Int))
    let new_events := if 0 < needed then fresh (head_category categories) needed else []
    let cache2 := if new_events.isEmpty then cache
      else cache_events cache location start_date end_date new_events
    (pyTake max_results (remove_duplicates (cached_events ++ new_events)), cache2)

/-! ## TwitterRateLimiter (rate_limiter.py) -/

structure LimitInfo where
  limit : Int
  remaining : Int
  reset_time : Option Int
  window_minutes : Int
deriving DecidableEq, Repr

/-- `self.rate_limits`: endpoint name to limit info. -/
abbrev RateLimiterState := List (String × LimitInfo)

/-- `TwitterRateLimiter.setup_default_limits` (the constructor state). -/
def setup_default_limits : RateLimiterState :=
  [("search_recent", ⟨450, 450, none, 15⟩), ("users", ⟨300, 300, none, 15⟩)]

/-- The reset half of `check_rate_limit`: a scheduled reset is applied only
when `datetime.now()` is STRICTLY past `reset_time` (Python
`if limit_info["reset_time"] and datetime.now() > limit_info["reset_time"]`). -/
def applyReset (info : LimitInfo) (now : Int) : LimitInfo :=
  match info.reset_time with
  | some t => if now > t then { info with remaining := info.limit, reset_time := none }
              else info
  | none => info

/-- The decision half of `check_rate_limit`, after any reset was applied:
consume a positive `remaining`, otherwise deny and schedule a reset if none
is pending. -/
def consumeOrDeny (info : LimitInfo) (now : Int) : Bool × LimitInfo :=
  if info.remaining > 0 then (true, { info with remaining := info.remaining - 1 })
  else
    match info.reset_time with
    | none => (false, { info with reset_time := some (now + info.window_minutes * 60) })
    | some _ => (false, info)

/-- `TwitterRateLimiter.check_rate_limit`.  Unknown endpoints are always
permitted; tracked ones apply a pending reset, then consume or deny. -/
def check_rate_limit (s : RateLimiterState) (endpoint : String) (now : Int) :
    Bool × RateLimiterState :=
  match assocLookup s endpoint with
  | none => (true, s)
  | some info0 =>
    let r := consumeOrDeny (applyReset info0 now) now
    (r.1, assocSet s endpoint r.2)

/-- Rate-limit metadata extracted from the headers of a response, after Python
`int(...)` conversion (`x-rate-limit-limit`, `x-rate-limit-remaining`,
`x-rate-limit-reset`); an absent header leaves the field untouched. -/
structure RespHeaders where
  limit : Option Int
  remaining : Option Int
  reset : Option Int
deriving DecidableEq, Repr

/-- `TwitterRateLimiter.update_from_headers`: overwrite tracked fields with
whatever the upstream metadata provides; unknown endpoints are ignored. -/
def applyHeaders (info : LimitInfo) (h : RespHeaders) : LimitInfo :=
  let info1 : LimitInfo := match h.limit with
    | some l => { info with limit := l }
    | none => info
  let info2 : LimitInfo := match h.remaining with
    | some r => { info1 with remaining := r }
    | none => info1
  match h.reset with
  | some ts => { info2 with reset_time := some ts }
  | none => info2

def update_from_headers (s : RateLimiterState) (endpoint : String) (h : RespHeaders) :
    RateLimiterState :=
  match assocLookup s endpoint with
  | none => s
  | some info0 => assocSet s endpoint (applyHeaders info0 h)

/-- Remaining budget of a tracked endpoint, as an observation. -/
def remainingOf (s : RateLimiterState) (endpoint : String) : Option Int :=
  (assocLookup s endpoint).map (fun i => i.remaining)

/-! ## APICache (rate_limiter.py) -/

structure APICache (α : Type) where
  cache : List (String × (α × Int))
  ttl : Int
deriving DecidableEq

/-- `APICache.get`: a hit requires `time.time() - timestamp < ttl`; an
expired entry is deleted and reported absent. -/
def APICache.get {α : Type} (c : APICache α) (key : String) (now : Int) :
    Option α × APICache α :=
  match assocLookup c.cache key with
  | some (v, ts) =>
    if now - ts < c.ttl then (some v, c)
    else (none, { c with cache := assocErase c.cache key })
  | none => (none, c)

/-- `APICache.set`: unconditional overwrite with a fresh timestamp. -/
def APICache.set {α : Type} (c : APICache α) (key : String) (v : α) (now : Int) : APICache α :=
  { c with cache := assocSet c.cache key (v, now) }

/-! ## TwitterClient.make_request_with_retry (twitter_client.py) -/

/-- One invocation of the supplied `request_func`: it either returns a
response (whose optional `headers` attribute carries quota metadata) or
raises `tweepy.TooManyRequests`, `tweepy.BadRequest`, or any other
exception.  The tweepy `Response` is a named tuple and therefore always
truthy, so `if cached:` and `if cache_key and response:` reduce to
presence checks. -/
inductive Outcome (α : Type) where
  | success (resp : α) (headers : Option RespHeaders)
  | tooManyRequests
  | badRequest
  | otherError
deriving DecidableEq

/-- Observable result of one `make_request_with_retry` call: the returned
value, the final shared state, and counters for the number of real
`request_func` invocations, quota-denial waits, and retry backoff sleeps. -/
structure CallResult (α : Type) where
  result : Option α
  limiter : RateLimiterState
  cache : APICache α
  invocations : Nat
  quotaWaits : Nat
  backoffSleeps : Nat
deriving DecidableEq

/-- `max_retries = 1  # Only 1 retry to avoid long waits`. -/
def max_retries : Nat := 1

/-- Cache-key derivation inside the retry loop: only the `search_recent`
endpoint with a truthy `query` argument gets a key
(`f"search_{hash(query)}"`; the Python `hash` is modelled by the query
itself, which preserves per-query key identity — no claim depends on hash
collisions). -/
def cacheKeyFor (endpoint : String) (query : Option String) : Option String :=
  if endpoint = "search_recent" then
    match query with
    | some q => if q = "" then none else some ("search_" ++ q)
    | none => none
  else none

/-- The `for attempt in range(max_retries + 1)` loop of
`make_request_with_retry`, as structural recursion on the remaining
iteration count `fuel`.  Each iteration: quota check (a denial only sleeps,
then proceeds anyway), cache probe, one real invocation, then dispatch on
the outcome exactly as the `except` clauses do. -/
def run_attempts {α : Type} (endpoint : String) (query : Option String)
    (behavior : Nat → Outcome α) (now : Int) :
    Nat → Nat → RateLimiterState → APICache α → Nat → Nat → Nat → CallResult α
  | 0, _, lim, cache, inv, qw, bs => ⟨none, lim, cache, inv, qw, bs⟩
  | fuel + 1, attempt, lim, cache, inv, qw, bs =>
    let step := check_rate_limit lim endpoint now
    let lim1 := step.2
    let qw1 := if step.1 then qw else qw + 1
    let probe : Option α × APICache α :=
      match cacheKeyFor endpoint query with
      | some k => APICache.get cache k now
      | none => (none, cache)
    match probe with
    | (some v, cache1) => ⟨some v, lim1, cache1, inv, qw1, bs⟩
    | (none, cache1) =>
      match behavior inv with
      | Outcome.success resp hdrs =>
        let lim2 := match hdrs with
          | some h => update_from_headers lim1 endpoint h
          | none => lim1
        let cache2 := match cacheKeyFor endpoint query with
          | some k => APICache.set cache1 k resp now
          | none => cache1
        ⟨some resp, lim2, cache2, inv + 1, qw1, bs⟩
      | Outcome.tooManyRequests =>
        if attempt < max_retries then
          run_attempts endpoint query behavior now fuel (attempt + 1) lim1 cache1 (inv + 1) qw1 (bs + 1)
        else ⟨none, lim1, cache1, inv + 1, qw1, bs⟩
      | Outcome.badRequest => ⟨none, lim1, cache1, inv + 1, qw1, bs⟩
      | Outcome.otherError =>
        if attempt < max_retries then
          run_attempts endpoint query behavior now fuel (attempt + 1) lim1 cache1 (inv + 1) qw1 (bs + 1)
        else ⟨none, lim1, cache1, inv + 1, qw1, bs⟩

/-- `TwitterClient.make_request_with_retry`, entered with attempt 0 and the
shared limiter and response cache.  `query` is the value of
`kwargs.get("query") or (args[0] if args else None)`. -/
def make_request_with_retry {α : Type} (lim : RateLimiterState) (cache : APICache α)
    (endpoint : String) (query : Option String) (behavior : Nat → Outcome α) (now : Int) :
    CallResult α :=
  run_attempts endpoint query behavior now (max_retries + 1) 0 lim cache 0 0 0

/-! ## TwitterClient.search_recent_tweets_safe and SmartAttendeeEngine -/

/-- Keyword arguments that `search_recent_tweets_safe` forwards to the
upstream `client.search_recent_tweets` (the remaining tweepy kwargs are
fixed field lists and do not influence control flow). -/
structure SearchArgs where
  query : String
  max_results : Int
deriving DecidableEq, Repr

/-- `TwitterClient` shared state: the optional tweepy client (`None` when
`setup_client` failed; `is_operational` is exactly `client is not None`),
the rate limiter and the response cache. -/
structure TwitterClientState (α : Type) where
  client : Option Unit
  rate_limiter : RateLimiterState
  cache : APICache α
deriving DecidableEq

/-- Observable result of one `search_recent_tweets_safe` call; `args` is
the argument record actually forwarded to the upstream search (absent when
the upstream call machinery was never entered). -/
structure SearchOutcome (α : Type) where
  result : Option α
  state : TwitterClientState α
  invocations : Nat
  args : Option SearchArgs
deriving DecidableEq

/-- `TwitterClient.search_recent_tweets_safe`.  Accessing
`self.client.search_recent_tweets` on a `None` client raises and is caught
by the surrounding `try`, returning `None` untouched.  Otherwise
`max_results` is clamped (`max(10, min(max_results, 100))`) and the call is
delegated to `make_request_with_retry` on endpoint `search_recent`. -/
def search_recent_tweets_safe {α : Type} (st : TwitterClientState α) (query : String)
    (max_results : Int) (request_func : SearchArgs → Nat → Outcome α) (now : Int) :
    SearchOutcome α :=
  match st.client with
  | none => ⟨none, st, 0, none⟩
  | some _ =>
    let args : SearchArgs := ⟨query, max 10 (min max_results 100)⟩
    let r := make_request_with_retry st.rate_limiter st.cache "search_recent" (some query)
      (request_func args) now
    ⟨r.result, { st with rate_limiter := r.limiter, cache := r.cache }, r.invocations, some args⟩

/-- A tweet object from `tweets.data`. -/
structure TweetData where
  id : Nat
  author_id : Nat
  text : String
deriving DecidableEq, Repr

/-- A user object from `tweets.includes["users"]`; `description`,
`location` and `verified` may be `None`, and `followers_count` is absent
when the user lacks `public_metrics`. -/
structure TwitterUser where
  id : Nat
  username : String
  name : String
  description : Option String
  location : Option String
  followers_count : Option Nat
  verified : Option Bool
deriving DecidableEq, Repr

/-- The tweepy `Response` named tuple as used by `_search_twitter_safe`:
`data` (falsy when `None` or empty, both yielding the same early return)
and the optional `includes["users"]` list. -/
structure TweetsResponse where
  data : List TweetData
  users : Option (List TwitterUser)
deriving DecidableEq, Repr

/-- The dict of processed tweets built in `_search_twitter_safe` (the
`created_at` and `query` entries are never read downstream). -/
structure ProcessedTweet where
  text : String
  url : String
  username : String
  name : String
  bio : String
  location : String
  followers_count : Nat
  verified : Bool
deriving DecidableEq, Repr

/-- `users_dict.get(author_id)` where `users_dict` was filled by iterating
`tweets.includes["users"]` (a later duplicate id overwrites an earlier). -/
def usersDictGet (users : List TwitterUser) (author_id : Nat) : Option TwitterUser :=
  users.reverse.find? (fun u => u.id == author_id)

/-- The processing loop of `_search_twitter_safe`: tweets whose author is
not resolvable in `users_dict` are dropped. -/
def processTweets (resp : TweetsResponse) : List ProcessedTweet :=
  let users := resp.users.getD []
  resp.data.filterMap fun tw =>
    match usersDictGet users tw.author_id with
    | some u => some
        { text := tw.text
          url := "https://twitter.com/" ++ u.username ++ "/status/" ++ toString tw.id
          username := u.username
          name := u.name
          bio := u.description.getD ""
          location := u.location.getD ""
          followers_count := u.followers_count.getD 0
          verified := u.verified.getD false }
    | none => none

/-- `SmartAttendeeEngine._search_twitter_safe`: empty queries short-circuit;
`tweets_needed = max(10, min(max_results * 3, 100))`; a missing or empty
`tweets.data` yields no tweets. -/
def search_twitter_safe (st : TwitterClientState TweetsResponse) (query : String)
    (max_results : Int) (request_func : SearchArgs → Nat → Outcome TweetsResponse)
    (now : Int) : List ProcessedTweet × TwitterClientState TweetsResponse × Nat :=
  if query = "" then ([], st, 0)
  else
    let tweets_needed : Int := max 10 (min (max_results * 3) 100)
    let r := search_recent_tweets_safe st query tweets_needed request_func now
    match r.result with
    | none => ([], r.state, r.invocations)
    | some resp =>
      if resp.data.isEmpty then ([], r.state, r.invocations)
      else (processTweets resp, r.state, r.invocations)

/-- `SmartAttendeeEngine._build_single_query`:
`re.sub` deleting every character outside `\w` and whitespace, then `strip()`, followed by the quoted query
template (the ASCII reading of `\w`). -/
def build_single_query (event_name : String) : String :=
  let clean := pyStrip (String.mk (event_name.data.filter
    (fun c => c.isAlphanum || c == '_' || c.isWhitespace)))
  if clean = "" then ""
  else "\"" ++ clean ++ "\" OR attending \"" ++ clean ++ "\" -is:retweet"

/-- `self.attendee_patterns` flattened in dict-value iteration order. -/
def attendee_patterns : List String :=
  ["attending", "going to", "see you at", "can\x27t wait for", "excited for",
   "interested in", "looking forward to", "planning to attend", "might go to",
   "organizing", "hosting", "putting on", "running"]

/-- `SmartAttendeeEngine._is_relevant_tweet`. -/
def is_relevant_tweet (text event_name : String) : Bool :=
  if text = "" || event_name = "" then false
  else
    let text_lower := pyLower text
    let event_words := pySplitWs (pyLower event_name)
    (event_words.any fun w => decide (w.length > 3) && strContains text_lower w) ||
    (attendee_patterns.any fun p => strContains text_lower p)

structure ResearchAttendee where
  attendee_name : String
  username : String
  bio : String
  location : String
  followers_count : Nat
  verified : Bool
  confidence_score : Int
  source_tweet : String
  posted_by : String
deriving DecidableEq, Repr

/-- `SmartAttendeeEngine._extract_attendees_from_tweets` (confidence 0.8 is
the hundredths value 80). -/
def extract_attendees_from_tweets (tweets : List ProcessedTweet) (event_name : String) :
    List ResearchAttendee :=
  tweets.filterMap fun t =>
    if is_relevant_tweet t.text event_name then
      some { attendee_name := t.name, username := "@" ++ t.username, bio := t.bio,
             location := t.location, followers_count := t.followers_count,
             verified := t.verified, confidence_score := 80,
             source_tweet := t.url, posted_by := "@" ++ t.username }
    else none

/-- The per-attendee score of `_calculate_confidence_scores`, in hundredths
(base 0.7; +0.2 verified; +0.1 for followers, bio length, location; capped
at 0.95). -/
def scoreOf (a : ResearchAttendee) : Int :=
  let s : Int := 70
  let s := if a.verified then s + 20 else s
  let s := if a.followers_count > 1000 then s + 10 else s
  let s := if a.bio.length > 20 then s + 10 else s
  let s := if a.location ≠ "" then s + 10 else s
  min s 95

/-- `SmartAttendeeEngine._calculate_confidence_scores`: rescore, then
`sorted(..., key=confidence, reverse=True)` (stable descending sort). -/
def calculate_confidence_scores (attendees : List ResearchAttendee) : List ResearchAttendee :=
  let scored := attendees.map fun a => { a with confidence_score := scoreOf a }
  scored.mergeSort (fun x y => decide (y.confidence_score ≤ x.confidence_score))

/-- `SmartAttendeeEngine.discover_attendees`.  The first statement after the
log line checks `is_operational` and returns `[]` before any query is built
or any upstream call attempted. -/
def discover_attendees (st : TwitterClientState TweetsResponse) (event_name : String)
    (max_results : Int) (request_func : SearchArgs → Nat → Outcome TweetsResponse)
    (now : Int) : List ResearchAttendee × TwitterClientState TweetsResponse × Nat :=
  match st.client with
  | none => ([], st, 0)
  | some _ =>
    let query := build_single_query event_name
    let r := search_twitter_safe st query max_results request_func now
    if r.1.isEmpty then ([], r.2.1, r.2.2)
    else
      let attendees := extract_attendees_from_tweets r.1 event_name
      let scored := calculate_confidence_scores attendees
      (pyTake max_results scored, r.2.1, r.2.2)

/-! ## Trace and observation definitions used by the statements -/

/-- A quota-tracker operation: a `check_rate_limit` call at some instant, or
an `update_from_headers` call with some observed metadata. -/
inductive QuotaOp where
  | check (endpoint : String) (now : Int)
  | update (endpoint : String) (headers : RespHeaders)
deriving DecidableEq

def applyQuotaOp (s : RateLimiterState) : QuotaOp → RateLimiterState
  | QuotaOp.check e n => (check_rate_limit s e n).2
  | QuotaOp.update e h => update_from_headers s e h

def runQuotaOps (s : RateLimiterState) (ops : List QuotaOp) : RateLimiterState :=
  ops.foldl applyQuotaOp s

/-- Header metadata that reports a coherent budget: limit and remaining come
together with `0 <= remaining <= limit`, or neither is present. -/
def headersBalanced (h : RespHeaders) : Bool :=
  match h.limit, h.remaining with
  | some l, some r => decide (0 ≤ r) && decide (r ≤ l)
  | none, none => true
  | _, _ => false

def opBalanced : QuotaOp → Bool
  | QuotaOp.check _ _ => true
  | QuotaOp.update _ h => headersBalanced h

/-- The per-endpoint budget invariant: `0 <= remaining <= limit`. -/
def quotaStateOK (s : RateLimiterState) : Prop :=
  ∀ p ∈ s, 0 ≤ p.2.remaining ∧ p.2.remaining ≤ p.2.limit

instance : DecidablePred quotaStateOK := fun s => List.decidableBAll _ s

/-- One `_cache_events` insertion, as a trace operation. -/
structure InsertOp where
  location : String
  start_date : String
  end_date : String
  events : List ResearchEvent
deriving DecidableEq

def runInserts (cache : EventCache) (ops : List InsertOp) : EventCache :=
  ops.foldl (fun c op => cache_events c op.location op.start_date op.end_date op.events) cache

/-- Every location group holds at most 5 stored ranges. -/
def groupsBounded (cache : EventCache) : Prop :=
  ∀ loc : String, ((assocLookup cache loc).getD []).length ≤ 5

/-! ## Concrete inputs used by witnesses and counterexamples -/

/-- An event stored under range `2024-01-01_2024-01-31` whose own date
`2024-02-01` lies outside that stored range. -/
def c1Event : ResearchEvent :=
  ⟨"Expo", "2024-02-01", "Hall A", "NYC", "other", 85, "", "Google Events"⟩

def c1Cache : EventCache := [("NYC", [("2024-01-01_2024-01-31", [c1Event])])]

/-- A group already holding five distinct stored ranges. -/
def c7Ranges : RangeMap :=
  [("2024-01-01_2024-01-02", []), ("2024-01-03_2024-01-04", []),
   ("2024-01-05_2024-01-06", []), ("2024-01-07_2024-01-08", []),
   ("2024-01-09_2024-01-10", [])]

def c7Cache : EventCache := [("NYC", c7Ranges)]

/-- A cached-side event and a fresh-side event with the same dedup key
(lower-cased trimmed name and identical date) but different payloads. -/
def c8Cached : ResearchEvent :=
  ⟨"Jazz Night", "2024-05-01", "Blue Club", "NYC", "music", 85, "cached", "Google Events"⟩

def c8FreshDup : ResearchEvent :=
  ⟨"JAZZ NIGHT", "2024-05-01", "Other Venue", "NYC", "music", 85, "fresh", "Google Events"⟩

def c8Cache : EventCache := [("NYC", [("2024-05-01_2024-05-02", [c8Cached])])]

/-! ## Association-list lemmas -/

theorem assocLookup_assocSet_self {β : Type} (l : List (String × β)) (k : String) (v : β) :
    assocLookup (assocSet l k v) k = some v := by
  induction l with
  | nil => simp [assocSet, assocLookup]
  | cons p rest ih =>
    obtain ⟨k1, v1⟩ := p
    by_cases h : k1 = k
    · simp [assocSet, h, assocLookup]
    · simp [assocSet, h, assocLookup, ih]

theorem assocLookup_assocSet_ne {β : Type} (l : List (String × β)) (k k1 : String) (v : β)
    (h : k1 ≠ k) : assocLookup (assocSet l k v) k1 = assocLookup l k1 := by
  have hk : k ≠ k1 := Ne.symm h
  induction l with
  | nil => simp [assocSet, assocLookup, hk]
  | cons p rest ih =>
    obtain ⟨k2, v2⟩ := p
    by_cases h2 : k2 = k
    · subst h2
      simp [assocSet, assocLookup, hk]
    · simp only [assocSet, if_neg h2, assocLookup]
      by_cases h3 : k2 = k1 <;> simp [h3, ih]

theorem assocLookup_mem {β : Type} (l : List (String × β)) (k : String) (v : β)
    (h : assocLookup l k = some v) : (k, v) ∈ l := by
  induction l with
  | nil => simp [assocLookup] at h
  | cons p rest ih =>
    obtain ⟨k1, v1⟩ := p
    by_cases h1 : k1 = k
    · subst h1
      simp [assocLookup] at h
      simp [h]
    · simp [assocLookup, h1] at h
      exact List.mem_cons_of_mem _ (ih h)

theorem mem_assocSet {β : Type} (l : List (String × β)) (k : String) (v : β) (p : String × β)
    (h : p ∈ assocSet l k v) : p ∈ l ∨ p = (k, v) := by
  induction l with
  | nil => simp [assocSet] at h; simp [h]
  | cons q rest ih =>
    obtain ⟨k1, v1⟩ := q
    by_cases h1 : k1 = k
    · simp [assocSet, h1] at h
      rcases h with h | h
      · right; simp [h]
      · left; exact List.mem_cons_of_mem _ h
    · simp only [assocSet, if_neg h1, List.mem_cons] at h
      rcases h with h | h
      · left; simp [h]
      · rcases ih h with h2 | h2
        · left; exact List.mem_cons_of_mem _ h2
        · right; exact h2

theorem assocSet_length_le {β : Type} (l : List (String × β)) (k : String) (v : β) :
    (assocSet l k v).length ≤ l.length + 1 := by
  induction l with
  | nil => simp [assocSet]
  | cons q rest ih =>
    obtain ⟨k1, v1⟩ := q
    by_cases h1 : k1 = k
    · simp [assocSet, h1]
    · simp only [assocSet, if_neg h1, List.length_cons]
      omega

theorem assocSet_of_not_mem {β : Type} (l : List (String × β)) (k : String) (v : β)
    (h : k ∉ l.map Prod.fst) : assocSet l k v = l ++ [(k, v)] := by
  induction l with
  | nil => simp [assocSet]
  | cons q rest ih =>
    obtain ⟨k1, v1⟩ := q
    simp only [List.map_cons, List.mem_cons] at h
    push_neg at h
    simp [assocSet, Ne.symm h.1, ih h.2]


/-! ## Quota tracker lemmas -/

theorem applyReset_budget (info : LimitInfo) (now : Int)
    (h : 0 ≤ info.remaining ∧ info.remaining ≤ info.limit) :
    0 ≤ (applyReset info now).remaining ∧
    (applyReset info now).remaining ≤ (applyReset info now).limit := by
  unfold applyReset
  split
  · split
    · constructor
      · simp
        omega
      · simp
    · exact h
  · exact h

theorem consumeOrDeny_budget (info : LimitInfo) (now : Int)
    (h : 0 ≤ info.remaining ∧ info.remaining ≤ info.limit) :
    0 ≤ (consumeOrDeny info now).2.remaining ∧
    (consumeOrDeny info now).2.remaining ≤ (consumeOrDeny info now).2.limit := by
  unfold consumeOrDeny
  split
  · simp
    omega
  · split <;> simpa using h

theorem applyHeaders_budget (info : LimitInfo) (h : RespHeaders)
    (hb : headersBalanced h = true)
    (hok : 0 ≤ info.remaining ∧ info.remaining ≤ info.limit) :
    0 ≤ (applyHeaders info h).remaining ∧
    (applyHeaders info h).remaining ≤ (applyHeaders info h).limit := by
  unfold headersBalanced at hb
  unfold applyHeaders
  rcases h with ⟨hl, hr, hs⟩
  rcases hl with _ | l <;> rcases hr with _ | r <;> rcases hs with _ | ts <;>
    simp_all <;> omega

theorem quotaStateOK_check (s : RateLimiterState) (e : String) (n : Int)
    (hok : quotaStateOK s) : quotaStateOK (check_rate_limit s e n).2 := by
  unfold check_rate_limit
  cases hlook : assocLookup s e with
  | none => simpa using hok
  | some info0 =>
    have hinfo := hok _ (assocLookup_mem s e info0 hlook)
    simp only
    intro p hp
    rcases mem_assocSet _ _ _ _ hp with h | h
    · exact hok _ h
    · subst h
      exact consumeOrDeny_budget _ n (applyReset_budget info0 n hinfo)

theorem quotaStateOK_update (s : RateLimiterState) (e : String) (h : RespHeaders)
    (hb : headersBalanced h = true) (hok : quotaStateOK s) :
    quotaStateOK (update_from_headers s e h) := by
  unfold update_from_headers
  cases hlook : assocLookup s e with
  | none => exact hok
  | some info0 =>
    have hinfo := hok _ (assocLookup_mem s e info0 hlook)
    intro p hp
    rcases mem_assocSet _ _ _ _ hp with hh | hh
    · exact hok _ hh
    · subst hh
      exact applyHeaders_budget info0 h hb hinfo

theorem quotaStateOK_applyOp (s : RateLimiterState) (op : QuotaOp)
    (hb : opBalanced op = true) (hok : quotaStateOK s) : quotaStateOK (applyQuotaOp s op) := by
  cases op with
  | check e n => exact quotaStateOK_check s e n hok
  | update e h => exact quotaStateOK_update s e h hb hok

theorem quotaStateOK_runOps (ops : List QuotaOp) :
    ∀ s : RateLimiterState, quotaStateOK s → (∀ op ∈ ops, opBalanced op = true) →
    quotaStateOK (runQuotaOps s ops) := by
  induction ops with
  | nil => intro s hok _; exact hok
  | cons op rest ih =>
    intro s hok hb
    simp only [runQuotaOps, List.foldl_cons]
    exact ih _ (quotaStateOK_applyOp s op (hb op (List.mem_cons_self op rest)) hok)
      (fun o ho => hb o (List.mem_cons_of_mem op ho))

/-- C5 (amended): starting from the constructor state, any sequence of
`check_rate_limit` and `update_from_headers` operations whose header
metadata is balanced keeps every tracked `remaining` in `[0, limit]`. -/
theorem quota_budget_invariant (ops : List QuotaOp)
    (hb : ∀ op ∈ ops, opBalanced op = true) :
    quotaStateOK (runQuotaOps setup_default_limits ops) :=
  quotaStateOK_runOps ops setup_default_limits (by decide) hb

theorem quota_budget_invariant_witness :
    quotaStateOK (runQuotaOps setup_default_limits
      [QuotaOp.check "search_recent" 5,
       QuotaOp.update "search_recent" ⟨some 450, some 30, some 900⟩,
       QuotaOp.check "search_recent" 1000]) :=
  quota_budget_invariant _ (by decide)

/-- C5 counterexample: a single `update_from_headers` carrying only
`x-rate-limit-remaining: 1000` pushes `remaining` to 1000 over the tracked
limit 450, with no reset involved. -/
theorem quota_budget_counterexample :
    assocLookup (runQuotaOps setup_default_limits
        [QuotaOp.update "search_recent" ⟨none, some 1000, none⟩]) "search_recent" =
      some ⟨450, 1000, none, 15⟩ ∧
    ¬ quotaStateOK (runQuotaOps setup_default_limits
        [QuotaOp.update "search_recent" ⟨none, some 1000, none⟩]) := by
  constructor
  · decide
  · decide

/-- C4 (amended): once `now` is STRICTLY past a scheduled `resetAt`, the
next `check_rate_limit` resets `remaining` to `limit` and clears
`reset_time` before deciding, and for a positive limit it grants the
permit, leaving the freshly reset budget decremented by one. -/
theorem reset_correctness (s : RateLimiterState) (endpoint : String) (now t : Int)
    (info : LimitInfo) (hlook : assocLookup s endpoint = some info)
    (ht : info.reset_time = some t) (hnow : t < now) (hpos : 0 < info.limit) :
    (check_rate_limit s endpoint now).1 = true ∧
    assocLookup (check_rate_limit s endpoint now).2 endpoint =
      some ⟨info.limit, info.limit - 1, none, info.window_minutes⟩ := by
  have hreset : applyReset info now =
      { info with remaining := info.limit, reset_time := none } := by
    unfold applyReset
    rw [ht]
    simp only [if_pos hnow]
  have hcons : consumeOrDeny (applyReset info now) now =
      (true, ⟨info.limit, info.limit - 1, none, info.window_minutes⟩) := by
    rw [hreset]
    unfold consumeOrDeny
    simp [hpos]
  simp only [check_rate_limit, hlook, hcons]
  exact ⟨trivial, assocLookup_assocSet_self s endpoint _⟩

theorem reset_correctness_witness :
    (check_rate_limit [("search_recent", ⟨450, 0, some 500, 15⟩)] "search_recent" 501).1 = true ∧
    assocLookup
      (check_rate_limit [("search_recent", ⟨450, 0, some 500, 15⟩)] "search_recent" 501).2
      "search_recent" = some ⟨450, 449, none, 15⟩ :=
  reset_correctness _ "search_recent" 501 500 ⟨450, 0, some 500, 15⟩ rfl rfl
    (by decide) (by decide)

/-- C4 counterexample: at the exact boundary instant `now = resetAt` the
code does NOT reset (Python compares with strict `>`): with
`resetAt = 500`, `remaining = 0` and `now = 500` the check is denied and
the state keeps `remaining = 0` and the pending `resetAt`, while the claim
(`now >= resetAt` resets and grants) requires a granted permit. -/
theorem reset_correctness_counterexample :
    (check_rate_limit [("search_recent", ⟨450, 0, some 500, 15⟩)] "search_recent" 500).1 =
      false ∧
    assocLookup
      (check_rate_limit [("search_recent", ⟨450, 0, some 500, 15⟩)] "search_recent" 500).2
      "search_recent" = some ⟨450, 0, some 500, 15⟩ := by
  constructor
  · decide
  · decide

/-! ## Guarded caller lemmas -/

theorem run_attempts_invocations_le {α : Type} (endpoint : String) (query : Option String)
    (behavior : Nat → Outcome α) (now : Int) :
    ∀ (fuel attempt : Nat) (lim : RateLimiterState) (cache : APICache α) (inv qw bs : Nat),
    (run_attempts endpoint query behavior now fuel attempt lim cache inv qw bs).invocations ≤
      inv + fuel := by
  intro fuel
  induction fuel with
  | zero => intro attempt lim cache inv qw bs; simp [run_attempts]
  | succ f ih =>
    intro attempt lim cache inv qw bs
    simp only [run_attempts]
    split
    · simp
    · split
      · simp
      · split
        · exact le_trans (ih _ _ _ _ _ _) (by omega)
        · simp
      · simp
      · split
        · exact le_trans (ih _ _ _ _ _ _) (by omega)
        · simp

/-- C2: over every possible sequence of outcomes from the supplied request
function, one `make_request_with_retry` call invokes it at most twice. -/
theorem at_most_two_attempts {α : Type} (lim : RateLimiterState) (cache : APICache α)
    (endpoint : String) (query : Option String) (behavior : Nat → Outcome α) (now : Int) :
    (make_request_with_retry lim cache endpoint query behavior now).invocations ≤ 2 := by
  have h := run_attempts_invocations_le endpoint query behavior now (max_retries + 1) 0
    lim cache 0 0 0
  simpa [make_request_with_retry, max_retries] using h

/-- C9: when the first real invocation raises `tweepy.BadRequest` (and the
response cache cannot serve the request), `make_request_with_retry` returns
`None` after exactly one invocation and performs no retry backoff sleep. -/
theorem bad_request_short_circuit {α : Type} (lim : RateLimiterState) (cache : APICache α)
    (endpoint : String) (query : Option String) (behavior : Nat → Outcome α) (now : Int)
    (hmiss : ∀ k, cacheKeyFor endpoint query = some k → (APICache.get cache k now).1 = none)
    (hb : behavior 0 = Outcome.badRequest) :
    (make_request_with_retry lim cache endpoint query behavior now).result = none ∧
    (make_request_with_retry lim cache endpoint query behavior now).invocations = 1 ∧
    (make_request_with_retry lim cache endpoint query behavior now).backoffSleeps = 0 := by
  unfold make_request_with_retry max_retries
  simp only [run_attempts]
  cases hk : cacheKeyFor endpoint query with
  | none => simp [hb]
  | some k =>
    have hm := hmiss k hk
    cases hget : APICache.get cache k now with
    | mk o c2 =>
      rw [hget] at hm
      simp only at hm
      subst hm
      simp [hget, hb]

theorem bad_request_short_circuit_witness :
    (make_request_with_retry setup_default_limits (⟨[], 1800⟩ : APICache Nat) "users" none
      (fun _ => Outcome.badRequest) 0).result = none ∧
    (make_request_with_retry setup_default_limits (⟨[], 1800⟩ : APICache Nat) "users" none
      (fun _ => Outcome.badRequest) 0).invocations = 1 ∧
    (make_request_with_retry setup_default_limits (⟨[], 1800⟩ : APICache Nat) "users" none
      (fun _ => Outcome.badRequest) 0).backoffSleeps = 0 :=
  bad_request_short_circuit _ _ "users" none _ 0
    (fun k hk => by simp [cacheKeyFor] at hk) rfl

/-- C3 (amended): a cache hit under a derived key returns the cached value
with zero upstream invocations and no backoff, and the final limiter state
is that of exactly ONE `check_rate_limit` performed before the cache
lookup; when no pending reset has passed, that single check consumes
exactly one quota unit if it granted a permit (`remaining` positive) and
zero units if it denied (`remaining` nonpositive), so the claimed "exactly
one unit" holds only on the granted side. -/
theorem cache_hit_quota (α : Type) (lim : RateLimiterState) (cache : APICache α)
    (endpoint : String) (query : Option String) (behavior : Nat → Outcome α) (now : Int)
    (k : String) (v : α)
    (hk : cacheKeyFor endpoint query = some k)
    (hv : (APICache.get cache k now).1 = some v) :
    (make_request_with_retry lim cache endpoint query behavior now).result = some v ∧
    (make_request_with_retry lim cache endpoint query behavior now).invocations = 0 ∧
    (make_request_with_retry lim cache endpoint query behavior now).backoffSleeps = 0 ∧
    (make_request_with_retry lim cache endpoint query behavior now).limiter =
      (check_rate_limit lim endpoint now).2 ∧
    (∀ info, assocLookup lim endpoint = some info → (∀ t ∈ info.reset_time, now ≤ t) →
      ((0 < info.remaining →
        remainingOf (make_request_with_retry lim cache endpoint query behavior now).limiter
          endpoint = some (info.remaining - 1)) ∧
       (info.remaining ≤ 0 →
        remainingOf (make_request_with_retry lim cache endpoint query behavior now).limiter
          endpoint = some info.remaining))) := by
  have hmain : make_request_with_retry lim cache endpoint query behavior now =
      ⟨some v, (check_rate_limit lim endpoint now).2, (APICache.get cache k now).2, 0,
        if (check_rate_limit lim endpoint now).1 = true then 0 else 1, 0⟩ := by
    unfold make_request_with_retry max_retries
    simp only [run_attempts, hk]
    cases hget : APICache.get cache k now with
    | mk o c2 =>
      rw [hget] at hv
      simp only at hv
      subst hv
      simp [hget]
  rw [hmain]
  refine ⟨rfl, rfl, rfl, rfl, ?_⟩
  intro info hlook hreset
  have hre : applyReset info now = info := by
    unfold applyReset
    cases hrt : info.reset_time with
    | none => rfl
    | some t =>
      have := hreset t (by simp [hrt])
      simp only [if_neg (by omega : ¬ now > t)]
  constructor
  · intro hpos
    simp only [check_rate_limit, hlook, hre]
    unfold consumeOrDeny
    rw [if_pos (by omega : info.remaining > 0)]
    simp only [remainingOf, assocLookup_assocSet_self]
    rfl
  · intro hnonpos
    simp only [check_rate_limit, hlook, hre]
    unfold consumeOrDeny
    rw [if_neg (by omega : ¬ info.remaining > 0)]
    cases hrt : info.reset_time with
    | none => simp only [remainingOf, assocLookup_assocSet_self]; rfl
    | some t => simp only [remainingOf, assocLookup_assocSet_self]; rfl

theorem cache_hit_quota_witness :
    (make_request_with_retry setup_default_limits
      (⟨[("search_q", (7, 0))], 1800⟩ : APICache Nat) "search_recent" (some "q")
      (fun _ => Outcome.otherError) 100).result = some 7 ∧
    (make_request_with_retry setup_default_limits
      (⟨[("search_q", (7, 0))], 1800⟩ : APICache Nat) "search_recent" (some "q")
      (fun _ => Outcome.otherError) 100).invocations = 0 ∧
    remainingOf (make_request_with_retry setup_default_limits
      (⟨[("search_q", (7, 0))], 1800⟩ : APICache Nat) "search_recent" (some "q")
      (fun _ => Outcome.otherError) 100).limiter "search_recent" = some 449 := by
  have h := cache_hit_quota Nat setup_default_limits
    (⟨[("search_q", (7, 0))], 1800⟩ : APICache Nat) "search_recent" (some "q")
    (fun _ => Outcome.otherError) 100 "search_q" 7 rfl rfl
  refine ⟨h.1, h.2.1, ?_⟩
  have h5 := (h.2.2.2.2 ⟨450, 450, none, 15⟩ rfl (by simp)).1 (by decide)
  simpa using h5

/-- C3 counterexample to the claim as stated: when the quota is exhausted
(`remaining = 0`, no pending reset), a cache hit still returns the cached
value immediately, but consumes ZERO quota units rather than the claimed
exactly one (`remaining` is 0 both before and after the call). -/
theorem cache_hit_quota_counterexample :
    (make_request_with_retry [("search_recent", ⟨450, 0, none, 15⟩)]
      (⟨[("search_q", (7, 0))], 1800⟩ : APICache Nat) "search_recent" (some "q")
      (fun _ => Outcome.otherError) 100).result = some 7 ∧
    remainingOf [("search_recent", (⟨450, 0, none, 15⟩ : LimitInfo))] "search_recent" =
      some 0 ∧
    remainingOf (make_request_with_retry [("search_recent", ⟨450, 0, none, 15⟩)]
      (⟨[("search_q", (7, 0))], 1800⟩ : APICache Nat) "search_recent" (some "q")
      (fun _ => Outcome.otherError) 100).limiter "search_recent" = some 0 := by
  refine ⟨by decide, by decide, by decide⟩

/-- C6: with a non-operational client (`self.client is None`),
`discover_attendees` returns the empty list, performs zero upstream
invocations, and leaves the whole client state — rate limiter included —
untouched. -/
theorem operational_short_circuit (st : TwitterClientState TweetsResponse)
    (event_name : String) (max_results : Int)
    (request_func : SearchArgs → Nat → Outcome TweetsResponse) (now : Int)
    (h : st.client = none) :
    discover_attendees st event_name max_results request_func now = ([], st, 0) := by
  unfold discover_attendees
  rw [h]

theorem operational_short_circuit_witness :
    discover_attendees ⟨none, setup_default_limits, ⟨[], 1800⟩⟩ "AI Summit" 5
      (fun _ _ => Outcome.tooManyRequests) 0 =
      ([], ⟨none, setup_default_limits, ⟨[], 1800⟩⟩, 0) :=
  operational_short_circuit _ "AI Summit" 5 _ 0 rfl

/-- C10: with an operational client, `search_recent_tweets_safe` forwards
`max(10, min(max_results, 100))` as the upstream `max_results`: requests
under 10 are raised to 10, requests over 100 are capped at 100, in-range
requests pass through. -/
theorem max_results_clamped (α : Type) (st : TwitterClientState α) (query : String)
    (max_results : Int) (request_func : SearchArgs → Nat → Outcome α) (now : Int)
    (h : st.client = some ()) :
    (search_recent_tweets_safe st query max_results request_func now).args =
      some ⟨query, max 10 (min max_results 100)⟩ ∧
    (max_results < 10 →
      (search_recent_tweets_safe st query max_results request_func now).args =
        some ⟨query, 10⟩) ∧
    (100 < max_results →
      (search_recent_tweets_safe st query max_results request_func now).args =
        some ⟨query, 100⟩) ∧
    (10 ≤ max_results → max_results ≤ 100 →
      (search_recent_tweets_safe st query max_results request_func now).args =
        some ⟨query, max_results⟩) := by
  unfold search_recent_tweets_safe
  rw [h]
  refine ⟨rfl, ?_, ?_, ?_⟩
  · intro hlt
    have : max 10 (min max_results 100) = 10 := by omega
    simp [this]
  · intro hgt
    have : max 10 (min max_results 100) = 100 := by omega
    simp [this]
  · intro h1 h2
    have : max 10 (min max_results 100) = max_results := by omega
    simp [this]

theorem max_results_clamped_witness :
    (search_recent_tweets_safe (⟨some (), setup_default_limits, ⟨[], 1800⟩⟩ :
        TwitterClientState Nat) "ai" 3 (fun _ _ => Outcome.badRequest) 0).args =
      some ⟨"ai", max 10 (min 3 100)⟩ ∧
    (search_recent_tweets_safe (⟨some (), setup_default_limits, ⟨[], 1800⟩⟩ :
        TwitterClientState Nat) "ai" 3 (fun _ _ => Outcome.badRequest) 0).args =
      some ⟨"ai", 10⟩ := by
  have h := max_results_clamped Nat ⟨some (), setup_default_limits, ⟨[], 1800⟩⟩ "ai" 3
    (fun _ _ => Outcome.badRequest) 0 rfl
  exact ⟨h.1, h.2.1 (by decide)⟩

/-! ## Range-cache lemmas -/

theorem collect_overlapping_mem (lo hi : Nat) (ranges : RangeMap) (res : List ResearchEvent)
    (hres : collect_overlapping lo hi ranges = some res) (e : ResearchEvent) :
    e ∈ res ↔ ∃ rk evs ss es cs ce, (rk, evs) ∈ ranges ∧
      split_range_key rk = some (ss, es) ∧ parseDate ss = some cs ∧ parseDate es = some ce ∧
      ranges_overlap lo hi cs ce = true ∧ e ∈ evs ∧ eventInRange lo hi e = true := by
  induction ranges generalizing res with
  | nil =>
    simp only [collect_overlapping, Option.some.injEq] at hres
    subst hres
    simp
  | cons p rest ih =>
    obtain ⟨rk, evs⟩ := p
    unfold collect_overlapping at hres
    cases hsk : split_range_key rk with
    | none => rw [hsk] at hres; exact absurd hres (by simp)
    | some pr =>
      obtain ⟨ss, es⟩ := pr
      rw [hsk] at hres
      cases hcs : parseDate ss with
      | none => simp [hcs] at hres
      | some cs =>
        cases hce : parseDate es with
        | none => simp [hcs, hce] at hres
        | some ce =>
          simp only [hcs, hce] at hres
          cases htail : collect_overlapping lo hi rest with
          | none => rw [htail] at hres; exact absurd hres (by simp)
          | some tail =>
            rw [htail] at hres
            dsimp only at hres
            have ihtail := ih tail htail
            by_cases hov : ranges_overlap lo hi cs ce = true
            · rw [if_pos hov, Option.some.injEq] at hres
              subst hres
              constructor
              · intro he
                rcases List.mem_append.mp he with he | he
                · have hm := List.mem_filter.mp he
                  exact ⟨rk, evs, ss, es, cs, ce, List.mem_cons_self _ _, hsk, hcs, hce,
                    hov, hm.1, hm.2⟩
                · obtain ⟨rk1, evs1, ss1, es1, cs1, ce1, hmem, h1, h2, h3, h4, h5, h6⟩ :=
                    ihtail.mp he
                  exact ⟨rk1, evs1, ss1, es1, cs1, ce1, List.mem_cons_of_mem _ hmem,
                    h1, h2, h3, h4, h5, h6⟩
              · rintro ⟨rk1, evs1, ss1, es1, cs1, ce1, hmem, h1, h2, h3, h4, h5, h6⟩
                rcases List.mem_cons.mp hmem with hhead | hrest
                · injection hhead with hrk hevs
                  subst hrk
                  subst hevs
                  exact List.mem_append.mpr (Or.inl (List.mem_filter.mpr ⟨h5, h6⟩))
                · exact List.mem_append.mpr (Or.inr (ihtail.mpr
                    ⟨rk1, evs1, ss1, es1, cs1, ce1, hrest, h1, h2, h3, h4, h5, h6⟩))
            · rw [if_neg hov, Option.some.injEq] at hres
              subst hres
              constructor
              · intro he
                obtain ⟨rk1, evs1, ss1, es1, cs1, ce1, hmem, h1, h2, h3, h4, h5, h6⟩ :=
                  ihtail.mp he
                exact ⟨rk1, evs1, ss1, es1, cs1, ce1, List.mem_cons_of_mem _ hmem,
                  h1, h2, h3, h4, h5, h6⟩
              · rintro ⟨rk1, evs1, ss1, es1, cs1, ce1, hmem, h1, h2, h3, h4, h5, h6⟩
                rcases List.mem_cons.mp hmem with hhead | hrest
                · injection hhead with hrk hevs
                  subst hrk
                  subst hevs
                  rw [hsk, Option.some.injEq] at h1
                  injection h1 with hss hes
                  subst hss
                  subst hes
                  rw [hcs, Option.some.injEq] at h2
                  rw [hce, Option.some.injEq] at h3
                  subst h2
                  subst h3
                  exact absurd h4 hov
                · exact ihtail.mpr ⟨rk1, evs1, ss1, es1, cs1, ce1, hrest, h1, h2, h3, h4,
                    h5, h6⟩

/-- C1 (amended): for a known location and parseable query bounds, an event
belongs to the cached-hit set computed by `_get_cached_events` exactly when
it belongs to some stored entry whose parsed stored range overlaps the
query range AND the own date of the event parses and lies inside the QUERY
range `[rangeStart, rangeEnd]` (the code never compares the item date with
the stored range). -/
theorem cached_hit_set_membership (cache : EventCache) (location start_date end_date : String)
    (ranges : RangeMap) (lo hi : Nat) (res : List ResearchEvent)
    (hloc : assocLookup cache location = some ranges)
    (hlo : parseDate start_date = some lo) (hhi : parseDate end_date = some hi)
    (hres : get_cached_events cache location start_date end_date = some res) :
    ∀ e : ResearchEvent, e ∈ res ↔ ∃ rk evs ss es cs ce, (rk, evs) ∈ ranges ∧
      split_range_key rk = some (ss, es) ∧ parseDate ss = some cs ∧ parseDate es = some ce ∧
      ranges_overlap lo hi cs ce = true ∧ e ∈ evs ∧ eventInRange lo hi e = true := by
  intro e
  unfold get_cached_events at hres
  rw [hloc, hlo, hhi] at hres
  exact collect_overlapping_mem lo hi ranges res hres e

theorem cached_hit_set_membership_witness :
    c1Event ∈ [c1Event] ↔ ∃ rk evs ss es cs ce,
      (rk, evs) ∈ [("2024-01-01_2024-01-31", [c1Event])] ∧
      split_range_key rk = some (ss, es) ∧ parseDate ss = some cs ∧ parseDate es = some ce ∧
      ranges_overlap 20240115 20240215 cs ce = true ∧ c1Event ∈ evs ∧
      eventInRange 20240115 20240215 c1Event = true :=
  cached_hit_set_membership c1Cache "NYC" "2024-01-15" "2024-02-15"
    [("2024-01-01_2024-01-31", [c1Event])] 20240115 20240215 [c1Event]
    (by decide) (by decide) (by decide) (by decide) c1Event

/-- C1 counterexample to the claim as stated: with stored range
`[2024-01-01, 2024-01-31]` and query range `[2024-01-15, 2024-02-15]`,
overlap is detected, and the stored item dated `2024-02-01` — INSIDE the
query range but OUTSIDE the stored range — is nevertheless INCLUDED in the
cached-hit set, because `_get_cached_events` filters items against the
query range, not the stored range. -/
theorem cached_hit_set_counterexample :
    ranges_overlap 20240115 20240215 20240101 20240131 = true ∧
    parseDate "2024-02-01" = some 20240201 ∧
    get_cached_events c1Cache "NYC" "2024-01-15" "2024-02-15" = some [c1Event] := by
  refine ⟨by decide, by decide, by decide⟩

theorem cache_events_groupsBounded (cache : EventCache)
    (location start_date end_date : String) (events : List ResearchEvent)
    (h : groupsBounded cache) :
    groupsBounded (cache_events cache location start_date end_date events) := by
  intro loc
  unfold cache_events
  by_cases hloc : loc = location
  · subst hloc
    rw [assocLookup_assocSet_self]
    simp only [Option.getD_some]
    split
    · rename_i hlen
      have := assocSet_length_le ((assocLookup cache loc).getD [])
        (start_date ++ "_" ++ end_date) events
      have hbound := h loc
      simp only [List.length_drop]
      omega
    · rename_i hlen
      omega
  · rw [assocLookup_assocSet_ne _ _ _ _ hloc]
    exact h loc

theorem runInserts_groupsBounded (ops : List InsertOp) :
    ∀ cache : EventCache, groupsBounded cache → groupsBounded (runInserts cache ops) := by
  induction ops with
  | nil => intro cache h; exact h
  | cons op rest ih =>
    intro cache h
    simp only [runInserts, List.foldl_cons]
    exact ih _ (cache_events_groupsBounded cache op.location op.start_date op.end_date
      op.events h)

/-- C7: from an empty cache, any sequence of insertions keeps every group
at 5 stored ranges or fewer; and inserting a 6th distinct `(start, end)`
range into a group of 5 leaves exactly 5 ranges, appending the new one and
evicting the first-inserted range. -/
theorem eviction_bound (cache : EventCache) (location start_date end_date : String)
    (events : List ResearchEvent) (ranges : RangeMap)
    (hloc : assocLookup cache location = some ranges)
    (hlen : ranges.length = 5)
    (hnodup : (ranges.map Prod.fst).Nodup)
    (hnew : (start_date ++ "_" ++ end_date) ∉ ranges.map Prod.fst) :
    (∀ ops : List InsertOp, groupsBounded (runInserts [] ops)) ∧
    assocLookup (cache_events cache location start_date end_date events) location =
      some (ranges.drop 1 ++ [(start_date ++ "_" ++ end_date, events)]) ∧
    (ranges.drop 1 ++ [(start_date ++ "_" ++ end_date, events)]).length = 5 ∧
    (∀ p0 ∈ ranges.head?,
      p0.1 ∉ (ranges.drop 1 ++ [(start_date ++ "_" ++ end_date, events)]).map Prod.fst) := by
  have happend : assocSet ranges (start_date ++ "_" ++ end_date) events =
      ranges ++ [(start_date ++ "_" ++ end_date, events)] :=
    assocSet_of_not_mem _ _ _ hnew
  have hdrop : (ranges ++ [(start_date ++ "_" ++ end_date, events)]).drop 1 =
      ranges.drop 1 ++ [(start_date ++ "_" ++ end_date, events)] :=
    List.drop_append_of_le_length (by omega)
  refine ⟨?_, ?_, ?_, ?_⟩
  · intro ops
    exact runInserts_groupsBounded ops [] (by intro loc; simp [assocLookup])
  · unfold cache_events
    rw [hloc]
    simp only [Option.getD_some, happend]
    rw [if_pos (by simp [hlen])]
    rw [hdrop]
    exact assocLookup_assocSet_self cache location _
  · simp only [List.length_append, List.length_drop, hlen]
    rfl
  · intro p0 hp0
    obtain ⟨q, rest2, hcons⟩ : ∃ q rest2, ranges = q :: rest2 := by
      cases ranges with
      | nil => simp at hlen
      | cons q rest2 => exact ⟨q, rest2, rfl⟩
    subst hcons
    simp only [List.head?_cons, Option.mem_some_iff] at hp0
    subst hp0
    simp only [List.drop_one, List.tail_cons, List.map_append, List.map_cons, List.map_nil]
    intro hmem
    rcases List.mem_append.mp hmem with hmem | hmem
    · simp only [List.map_cons, List.nodup_cons] at hnodup
      exact hnodup.1 hmem
    · simp only [List.mem_singleton] at hmem
      apply hnew
      rw [← hmem]
      simp

/-! ## Deduplication lemmas -/

theorem removeDupAux_eq_keepFirst (l : List ResearchEvent) :
    ∀ seen : List (String × String),
    removeDupAux seen l = keepFirstByKey (l.filter (fun e => decide (eventKey e ∉ seen))) := by
  induction l with
  | nil => intro seen; simp [removeDupAux, keepFirstByKey]
  | cons e rest ih =>
    intro seen
    by_cases hseen : eventKey e ∈ seen
    · simp only [removeDupAux, if_pos hseen, List.filter_cons]
      rw [if_neg (by simp [hseen])]
      exact ih seen
    · simp only [removeDupAux, if_neg hseen, List.filter_cons]
      rw [if_pos (by simp [hseen])]
      rw [keepFirstByKey]
      congr 1
      rw [ih (eventKey e :: seen)]
      congr 1
      rw [List.filter_filter]
      apply List.filter_congr
      intro x _
      simp only [List.mem_cons, not_or, Bool.decide_and, decide_not]

theorem remove_duplicates_eq_keepFirst (l : List ResearchEvent) :
    remove_duplicates l = keepFirstByKey l := by
  unfold remove_duplicates
  rw [removeDupAux_eq_keepFirst]
  congr 1
  apply List.filter_eq_self.mpr
  intro x _
  simp

theorem mem_of_mem_keepFirst (x : ResearchEvent) :
    ∀ l : List ResearchEvent, x ∈ keepFirstByKey l → x ∈ l := by
  intro l
  generalize hn : l.length = n
  induction n using Nat.strong_induction_on generalizing l with
  | _ n ih =>
    cases l with
    | nil => simp [keepFirstByKey]
    | cons e rest =>
      rw [keepFirstByKey]
      intro hx
      rcases List.mem_cons.mp hx with hx | hx
      · simp [hx]
      · have hlt : (rest.filter (fun y => decide (eventKey y ≠ eventKey e))).length < n := by
          subst hn
          simp only [List.length_cons]
          exact Nat.lt_succ_of_le (List.length_filter_le _ rest)
        have := ih _ hlt _ rfl hx
        exact List.mem_cons_of_mem _ (List.mem_filter.mp this).1

theorem keepFirst_key_from_left (x : ResearchEvent) :
    ∀ (l1 l2 : List ResearchEvent), x ∈ keepFirstByKey (l1 ++ l2) →
    (∃ c ∈ l1, eventKey c = eventKey x) → x ∈ l1 := by
  intro l1
  generalize hn : l1.length = n
  induction n using Nat.strong_induction_on generalizing l1 with
  | _ n ih =>
    cases l1 with
    | nil => rintro l2 _ ⟨c, hc, _⟩; simp at hc
    | cons a t =>
      intro l2 hx hc
      rw [List.cons_append, keepFirstByKey] at hx
      rcases List.mem_cons.mp hx with hx | hx
      · simp [hx]
      · have hxmem := mem_of_mem_keepFirst _ _ hx
        have hxne : eventKey x ≠ eventKey a := by
          have := (List.mem_filter.mp hxmem).2
          simpa using this
        obtain ⟨c, hcmem, hckey⟩ := hc
        rcases List.mem_cons.mp hcmem with hchead | hctail
        · subst hchead
          exact absurd hckey.symm hxne
        · rw [List.filter_append] at hx
          have hlt : (t.filter (fun y => decide (eventKey y ≠ eventKey a))).length < n := by
            subst hn
            simp only [List.length_cons]
            exact Nat.lt_succ_of_le (List.length_filter_le _ t)
          have hcfil : c ∈ t.filter (fun y => decide (eventKey y ≠ eventKey a)) := by
            apply List.mem_filter.mpr
            refine ⟨hctail, ?_⟩
            simp only [decide_eq_true_eq]
            rw [hckey]
            exact hxne
          have := ih _ hlt _ rfl _ hx ⟨c, hcfil, hckey⟩
          exact List.mem_cons_of_mem _ (List.mem_filter.mp this).1

theorem mem_of_mem_pyTake {β : Type} (x : β) (n : Int) (l : List β) (h : x ∈ pyTake n l) :
    x ∈ l := by
  unfold pyTake at h
  split at h
  · exact List.mem_of_mem_take h
  · exact List.mem_of_mem_take h

/-- C8: the fetch result is the cached-then-fresh concatenation,
deduplicated by `(lower-cased trimmed name, date)` keeping the first-seen
item, then truncated to `max_results`; an item whose key already occurs on
the cached side can only survive as the cached-side instance. -/
theorem dedup_truncate (cache : EventCache) (location start_date end_date : String)
    (categories : List String) (max_results : Int)
    (fresh : String → Int → List ResearchEvent)
    (cachedEvs newEvs : List ResearchEvent)
    (hc : get_cached_events cache location start_date end_date = some cachedEvs)
    (hnew : newEvs = if 0 < max 0 (max_results - (cachedEvs.length : Int)) then
      fresh (head_category categories) (max 0 (max_results - (cachedEvs.length : Int)))
      else []) :
    (discover_events cache location start_date end_date categories max_results fresh).1 =
      pyTake max_results (keepFirstByKey (cachedEvs ++ newEvs)) ∧
    (0 ≤ max_results →
      ((discover_events cache location start_date end_date categories max_results
        fresh).1).length ≤ max_results.toNat) ∧
    (∀ f ∈ (discover_events cache location start_date end_date categories max_results
        fresh).1,
      (∃ c ∈ cachedEvs, eventKey c = eventKey f) → f ∈ cachedEvs) := by
  have hmain : (discover_events cache location start_date end_date categories max_results
      fresh).1 = pyTake max_results (keepFirstByKey (cachedEvs ++ newEvs)) := by
    unfold discover_events
    rw [hc]
    simp only [hnew]
    rw [remove_duplicates_eq_keepFirst]
  refine ⟨hmain, ?_, ?_⟩
  · intro hpos
    rw [hmain]
    unfold pyTake
    rw [if_pos hpos]
    exact List.length_take_le _ _
  · intro f hf hkey
    rw [hmain] at hf
    exact keepFirst_key_from_left f cachedEvs newEvs (mem_of_mem_pyTake f _ _ hf) hkey

theorem eviction_bound_witness :
    assocLookup (cache_events c7Cache "NYC" "2024-02-01" "2024-02-05" []) "NYC" =
      some (c7Ranges.drop 1 ++ [("2024-02-01" ++ "_" ++ "2024-02-05", [])]) :=
  (eviction_bound c7Cache "NYC" "2024-02-01" "2024-02-05" [] c7Ranges
    (by decide) (by decide) (by decide) (by decide)).2.1

theorem dedup_truncate_witness :
    (discover_events c8Cache "NYC" "2024-05-01" "2024-05-02" ["music"] 5
        (fun _ _ => [c8FreshDup])).1 =
      pyTake 5 (keepFirstByKey ([c8Cached] ++ [c8FreshDup])) :=
  (dedup_truncate c8Cache "NYC" "2024-05-01" "2024-05-02" ["music"] 5
    (fun _ _ => [c8FreshDup]) [c8Cached] [c8FreshDup] (by decide) (by decide)).1
